import Mathlib

/-!
# Verification of `server/lib/healthchecks.js`

A shallow embedding of the health-check middleware of
`src/web/StoreWebApp/server/lib/healthchecks.js`, together with theorems
settling the specification's claims about it.

JavaScript strings are embedded as `List Char` (`JsStr`); the JS string
operations the source uses (`indexOf`, `endsWith`, template concatenation,
`<` comparison, `trim`) are given small executable definitions mirroring
their semantics, with characterisation lemmas relating them to the
declarative properties the specification states.
-/

namespace Healthchecks

/-- JavaScript strings, embedded as lists of characters. -/
abbrev JsStr := List Char

/-- Literal helper: a Lean string literal as a `JsStr`. -/
def jstr (s : String) : JsStr := s.toList

/-- JS `s.startsWith(t)` (also the success test of `indexOf` at offset 0):
`t` is an initial segment of `s`. -/
def jsStartsWith (s t : JsStr) : Bool :=
  s.take t.length == t

/-- JS `~s.indexOf(t)` as used by the source (truthy iff `t` occurs in `s`
as a contiguous substring; the empty string occurs in every string). -/
def jsIncludes : JsStr → JsStr → Bool
  | [], t => jsStartsWith [] t
  | c :: rest, t => jsStartsWith (c :: rest) t || jsIncludes rest t

/-- JS `s.endsWith(t)`: `t` is a final segment of `s`. -/
def jsEndsWith (s t : JsStr) : Bool :=
  decide (t.length ≤ s.length) && s.drop (s.length - t.length) == t

/-- JS string comparison `a < b`: lexicographic by code unit. -/
def jsLtStr : JsStr → JsStr → Bool
  | [], [] => false
  | [], _ :: _ => true
  | _ :: _, [] => false
  | a :: as, b :: bs =>
    if a < b then true
    else if b < a then false
    else jsLtStr as bs

/-- `t` occurs in `s` as a contiguous substring (declarative form). -/
def SubstrOf (t s : JsStr) : Prop := ∃ pre post, s = pre ++ t ++ post

theorem jsStartsWith_iff (s t : JsStr) :
    jsStartsWith s t = true ↔ ∃ rest, s = t ++ rest := by
  unfold jsStartsWith
  rw [beq_iff_eq]
  constructor
  · intro h
    refine ⟨s.drop t.length, ?_⟩
    conv_lhs => rw [← List.take_append_drop t.length s, h]
  · rintro ⟨rest, rfl⟩
    exact List.take_left t rest

theorem jsIncludes_iff (s t : JsStr) :
    jsIncludes s t = true ↔ SubstrOf t s := by
  induction s with
  | nil =>
    simp only [jsIncludes, jsStartsWith_iff, SubstrOf]
    constructor
    · rintro ⟨rest, hr⟩
      exact ⟨[], rest, by simpa using hr⟩
    · rintro ⟨pre, post, hp⟩
      have h1 := List.append_eq_nil.mp hp.symm
      have h2 := List.append_eq_nil.mp h1.1
      exact ⟨[], by simp [h2.2, h1.2, h2.1]⟩
  | cons c rest ih =>
    simp only [jsIncludes, Bool.or_eq_true, jsStartsWith_iff, ih, SubstrOf]
    constructor
    · rintro (⟨r, hr⟩ | ⟨pre, post, hp⟩)
      · exact ⟨[], r, by simpa using hr⟩
      · exact ⟨c :: pre, post, by simp [hp]⟩
    · rintro ⟨pre, post, hp⟩
      match pre, hp with
      | [], hp => exact Or.inl ⟨post, by simpa using hp⟩
      | p :: pre', hp =>
        exact Or.inr ⟨pre', post, by simpa using congrArg List.tail hp⟩

theorem jsEndsWith_iff (s t : JsStr) :
    jsEndsWith s t = true ↔ ∃ front, s = front ++ t := by
  unfold jsEndsWith
  rw [Bool.and_eq_true, beq_iff_eq, decide_eq_true_iff]
  constructor
  · rintro ⟨hlen, hdrop⟩
    refine ⟨s.take (s.length - t.length), ?_⟩
    conv_lhs => rw [← List.take_append_drop (s.length - t.length) s, hdrop]
  · rintro ⟨front, rfl⟩
    constructor
    · simp
    · have hlen : (front ++ t).length - t.length = front.length := by simp
      rw [hlen, List.drop_left]

theorem jsLtStr_iff_lex (a b : JsStr) :
    jsLtStr a b = true ↔ List.Lex (· < ·) a b := by
  induction a generalizing b with
  | nil =>
    cases b with
    | nil => simp [jsLtStr]
    | cons y ys =>
      simp only [jsLtStr, true_iff]
      exact List.Lex.nil
  | cons x xs ih =>
    cases b with
    | nil => simp [jsLtStr]
    | cons y ys =>
      simp only [jsLtStr]
      rcases lt_trichotomy x y with hxy | rfl | hyx
      · rw [if_pos hxy]
        simp only [true_iff]
        exact List.Lex.rel hxy
      · rw [if_neg (lt_irrefl x), if_neg (lt_irrefl x), ih ys]
        constructor
        · exact List.Lex.cons
        · intro h
          cases h with
          | cons h => exact h
          | rel h => exact absurd h (lt_irrefl x)
      · rw [if_neg (asymm hyx), if_pos hyx]
        simp only [Bool.false_eq_true, false_iff]
        intro h
        cases h with
        | cons h => exact absurd hyx (lt_irrefl x)
        | rel h => exact absurd h (asymm hyx)

theorem jsLtStr_trichotomy (a : JsStr) : ∀ b,
    jsLtStr a b = true ∨ jsLtStr b a = true ∨ a = b := by
  induction a with
  | nil =>
    intro b
    cases b with
    | nil => right; right; rfl
    | cons y ys => left; simp [jsLtStr]
  | cons x xs ih =>
    intro b
    cases b with
    | nil => right; left; simp [jsLtStr]
    | cons y ys =>
      rcases lt_trichotomy x y with hxy | rfl | hxy
      · left; simp [jsLtStr, hxy]
      · rcases ih ys with h | h | h
        · left; simp [jsLtStr, h]
        · right; left; simp [jsLtStr, h]
        · right; right; rw [h]
      · right; left; simp [jsLtStr, hxy, asymm hxy]

theorem jsLtStr_irrefl (a : JsStr) : jsLtStr a a = false := by
  induction a with
  | nil => rfl
  | cons x xs ih => simp [jsLtStr, ih]

theorem jsLtStr_trans (a : JsStr) : ∀ b c,
    jsLtStr a b = true → jsLtStr b c = true → jsLtStr a c = true := by
  induction a with
  | nil =>
    intro b c hab hbc
    cases b with
    | nil => simp [jsLtStr] at hab
    | cons y ys =>
      cases c with
      | nil => simp [jsLtStr] at hbc
      | cons z zs => simp [jsLtStr]
  | cons x xs ih =>
    intro b c hab hbc
    cases b with
    | nil => simp [jsLtStr] at hab
    | cons y ys =>
      cases c with
      | nil => simp [jsLtStr] at hbc
      | cons z zs =>
        simp only [jsLtStr] at hab hbc ⊢
        rcases lt_trichotomy x y with h1 | rfl | h1
        · rcases lt_trichotomy y z with h2 | rfl | h2
          · rw [if_pos (lt_trans h1 h2)]
          · rw [if_pos h1]
          · rw [if_neg (asymm h2), if_pos h2] at hbc
            exact absurd hbc (by simp)
        · rw [if_neg (lt_irrefl x), if_neg (lt_irrefl x)] at hab
          rcases lt_trichotomy x z with h2 | rfl | h2
          · rw [if_pos h2]
          · rw [if_neg (lt_irrefl x), if_neg (lt_irrefl x)] at hbc ⊢
            exact ih ys zs hab hbc
          · rw [if_neg (asymm h2), if_pos h2] at hbc
            exact absurd hbc (by simp)
        · rw [if_neg (asymm h1), if_pos h1] at hab
          exact absurd hab (by simp)

/-! ## Data model

The probe result data of `healthchecks.js`: a JS `Error` (with its optional
`code` property), the `{ statusCode, headers, body }` object that `get`
resolves with (of the headers only `location` is read by the source), and
the parsed-URL objects produced by the resolver (only the fields the source
reads: `protocol`, `hostname`, `host`, `port`, `path`). -/

/-- A JS `Error` as the source uses it: a `message` and an optional `code`
property (`'ETIMEDOUT'` marks the timeout error built in `get`). -/
structure JsError where
  message : JsStr
  code : Option JsStr
deriving DecidableEq, Repr

/-- The object `get` resolves with: `{ statusCode, headers, body }`. Of the
response headers the source only ever reads `headers.location`, so only that
header is carried. -/
structure HttpResp where
  statusCode : Int
  location : JsStr
  body : JsStr
deriving DecidableEq, Repr

/-- A parsed URL object, restricted to the fields `runCheck` reads:
`host`, `port`, `path` (the physical request target), `hostname` (the
logical host used for the `Host` header and the same-domain comparison)
and `protocol`. -/
structure URLObj where
  protocol : JsStr
  hostname : JsStr
  host : JsStr
  port : Option Nat
  path : JsStr
deriving DecidableEq, Repr

/-- The request object built in `runCheck` and passed to `get`. -/
structure HttpRequest where
  host : JsStr
  port : Option Nat
  path : JsStr
  headers : List (JsStr × JsStr)
deriving DecidableEq, Repr

/-- The network environment: what one `get(request, timeout)` call produces.
`get` either resolves with a response or rejects with an error; the timeout
race inside `get` is part of this environment (a probe that loses the race
is a `net` returning the `'ETIMEDOUT'`-coded error). -/
def Net := Nat → HttpRequest → Except JsError HttpResp

/-- A check outcome, with the properties assigned by the `Outcome`
constructor. `reason` is `Option`-valued: `none` models the constructor
leaving the JS `reason` property unassigned (the pass case), `some s`
models `reason = s`. `elapsed` is carried through as an abstract duration
(the source formats `process.hrtime` output, which is wall clock). -/
structure Outcome where
  url : JsStr
  elapsed : Nat
  expectedContent : List JsStr
  reason : Option JsStr
  timeout : Bool
  error : Option JsError
  statusCode : Option Int
  body : Option JsStr
deriving DecidableEq, Repr

/-- The `Outcome` constructor (healthchecks.js lines 49-75). Its argument
object is built either from a resolved response (`.ok`) or from a rejected
error (`.error`), exactly as at the two construction sites in
`checkFunction`. The decision chain is translated branch for branch:
timeout error, then any other error, then status code out of [200,400),
then a missing expected fragment (`expected.every(text => ~body.indexOf(text))`),
else pass (no `reason` assigned). -/
def mkOutcome (url : JsStr) (expected : List JsStr) (elapsed : Nat)
    (result : Except JsError HttpResp) : Outcome :=
  match result with
  | .error e =>
    if e.code == some (jstr "ETIMEDOUT") then
      { url := url, elapsed := elapsed, expectedContent := expected,
        reason := some (jstr "timeout"), timeout := true,
        error := none, statusCode := none, body := none }
    else
      { url := url, elapsed := elapsed, expectedContent := expected,
        reason := some (jstr "error"), timeout := false,
        error := some e, statusCode := none, body := none }
  | .ok r =>
    let reason : Option JsStr :=
      if r.statusCode < 200 ∨ 400 ≤ r.statusCode then
        some (jstr "statusCode")
      else if !(expected.all fun text => jsIncludes r.body text) then
        some (jstr "body")
      else
        none
    { url := url, elapsed := elapsed, expectedContent := expected,
      reason := reason, timeout := false,
      error := none, statusCode := some r.statusCode, body := some r.body }

/-! ## Probe runner -/

/-- HTTP status codes which we follow as redirects (line 35). -/
def REDIRECT_STATUSES : List Int := [301, 302, 303, 307]

/-- The maximum amount of redirects we will follow (line 38). -/
def MAX_REDIRECT_COUNT : Nat := 10

/-- `withinSameDomain` (lines 202-208): hosts are within the same domain if
they are equal or one is a dot-suffix of the other
(`` fromHost.endsWith(`.${toHost}`) ``, in either direction). -/
def withinSameDomain (fromURL toURL : URLObj) : Bool :=
  let fromHost := fromURL.hostname
  let toHost := toURL.hostname
  fromHost == toHost ||
    jsEndsWith fromHost ('.' :: toHost) ||
    jsEndsWith toHost ('.' :: fromHost)

/-- JS `protocol.replace(/:$/, '')`: strip one trailing colon. -/
def stripTrailingColon (s : JsStr) : JsStr :=
  if jsEndsWith s [':'] then s.dropLast else s

/-- The request object `runCheck` builds from the resolved loopback URL
(lines 136-144): physical target `host`/`port`/`path`, and the caller's
headers merged (`Object.assign`) with a `Host` header carrying the logical
hostname and an `X-Forwarded-Proto` header. Later entries of the
association list override earlier ones, as `Object.assign` does. -/
def requestOf (headers : List (JsStr × JsStr)) (loopbackURL : URLObj) : HttpRequest :=
  { host := loopbackURL.host, port := loopbackURL.port, path := loopbackURL.path,
    headers := headers ++
      [(jstr "Host", loopbackURL.hostname),
       (jstr "X-Forwarded-Proto", stripTrailingColon loopbackURL.protocol)] }

/-- The error `runCheck` throws at the redirect bound. -/
def tooManyRedirectsError : JsError :=
  { message := jstr "too many redirects", code := none }

/-- `runCheck` (lines 128-166): resolve the URL, perform the GET, and on a
redirect status either fail (`'too many redirects'`) once the counter has
reached `MAX_REDIRECT_COUNT`, recurse on the `Location` target when it is
within the same domain, or return the redirect response itself otherwise.
A rejected `get` propagates its error (the promise chain has no catch
here). The source's `loopbackURL` local is inlined as `resolver url`.
Termination of the JS recursion is the content of claim C2; here the same
counter bounds the recursion, decreasing
`MAX_REDIRECT_COUNT + 1 - redirects`. -/
def runCheck (net : Net) (timeout : Nat) (headers : List (JsStr × JsStr))
    (resolver : JsStr → URLObj) (url : JsStr) (redirects : Nat) :
    Except JsError HttpResp :=
  match net timeout (requestOf headers (resolver url)) with
  | .error e => .error e
  | .ok response =>
    if REDIRECT_STATUSES.contains response.statusCode then
      if h : MAX_REDIRECT_COUNT ≤ redirects then
        .error tooManyRedirectsError
      else
        if withinSameDomain (resolver response.location) (resolver url) then
          runCheck net timeout headers resolver response.location (redirects + 1)
        else
          .ok response
    else
      .ok response
termination_by MAX_REDIRECT_COUNT + 1 - redirects
decreasing_by simp only [MAX_REDIRECT_COUNT] at *; omega

/-- `runCheck` instrumented with the number of redirect hops it follows:
identical recursion structure, second component counting the recursive
calls taken. -/
def runCheckHops (net : Net) (timeout : Nat) (headers : List (JsStr × JsStr))
    (resolver : JsStr → URLObj) (url : JsStr) (redirects : Nat) :
    Except JsError HttpResp × Nat :=
  match net timeout (requestOf headers (resolver url)) with
  | .error e => (.error e, 0)
  | .ok response =>
    if REDIRECT_STATUSES.contains response.statusCode then
      if h : MAX_REDIRECT_COUNT ≤ redirects then
        (.error tooManyRedirectsError, 0)
      else
        if withinSameDomain (resolver response.location) (resolver url) then
          let sub := runCheckHops net timeout headers resolver response.location (redirects + 1)
          (sub.1, sub.2 + 1)
        else
          (.ok response, 0)
    else
      (.ok response, 0)
termination_by MAX_REDIRECT_COUNT + 1 - redirects
decreasing_by simp only [MAX_REDIRECT_COUNT] at *; omega

theorem runCheckHops_fst_aux (net : Net) (timeout : Nat)
    (headers : List (JsStr × JsStr)) (resolver : JsStr → URLObj) :
    ∀ fuel redirects url, MAX_REDIRECT_COUNT + 1 - redirects ≤ fuel →
      (runCheckHops net timeout headers resolver url redirects).1 =
        runCheck net timeout headers resolver url redirects := by
  intro fuel
  induction fuel with
  | zero =>
    intro redirects url h
    have hge : MAX_REDIRECT_COUNT ≤ redirects := by
      simp only [MAX_REDIRECT_COUNT] at *; omega
    rw [runCheckHops, runCheck]
    cases net timeout (requestOf headers (resolver url)) with
    | error e => rfl
    | ok response =>
      dsimp only
      by_cases hred : REDIRECT_STATUSES.contains response.statusCode = true
      · rw [if_pos hred, if_pos hred, dif_pos hge, dif_pos hge]
      · rw [if_neg hred, if_neg hred]
  | succ n ih =>
    intro redirects url h
    rw [runCheckHops, runCheck]
    cases net timeout (requestOf headers (resolver url)) with
    | error e => rfl
    | ok response =>
      dsimp only
      by_cases hred : REDIRECT_STATUSES.contains response.statusCode = true
      · by_cases hge : MAX_REDIRECT_COUNT ≤ redirects
        · rw [if_pos hred, if_pos hred, dif_pos hge, dif_pos hge]
        · by_cases hdom : withinSameDomain (resolver response.location) (resolver url) = true
          · rw [if_pos hred, if_pos hred, dif_neg hge, dif_neg hge,
              if_pos hdom, if_pos hdom]
            exact ih (redirects + 1) response.location
              (by simp only [MAX_REDIRECT_COUNT] at *; omega)
          · rw [if_pos hred, if_pos hred, dif_neg hge, dif_neg hge,
              if_neg hdom, if_neg hdom]
      · rw [if_neg hred, if_neg hred]

theorem runCheckHops_fst (net : Net) (timeout : Nat)
    (headers : List (JsStr × JsStr)) (resolver : JsStr → URLObj)
    (url : JsStr) (redirects : Nat) :
    (runCheckHops net timeout headers resolver url redirects).1 =
      runCheck net timeout headers resolver url redirects :=
  runCheckHops_fst_aux net timeout headers resolver
    (MAX_REDIRECT_COUNT + 1 - redirects) redirects url (Nat.le_refl _)

/-! ## Domain resolver

`checkFunction`'s inner `loopbackResolve` (lines 226-234) parses the URL it
is given against the synthetic base `` `${protocol}//localhost/` `` using
Node's legacy `url` module (`URL.resolve` followed by `URL.parse`), then
overrides `host` and `port` with the server's local address while keeping
the resolved `hostname`. The Node `url` module is an external library; the
next definitions model the fragment of its behaviour these inputs exercise:
scheme detection, `//`-authority parsing (hostname up to `:`, lowercased;
no userinfo or IPv6 bracket handling, which no input here uses), and
relative references resolved against the base's host `localhost`. -/

/-- A character allowed in a URL scheme after the first (RFC 3986). -/
def isSchemeChar (c : Char) : Bool := c.isAlphanum || c == '+' || c == '-' || c == '.'

/-- Modelled from the external Node `url` module: split a leading
`scheme:` off a URL string, if present. -/
def schemeSplit (u : JsStr) : Option (JsStr × JsStr) :=
  let s := u.takeWhile isSchemeChar
  match s with
  | [] => none
  | c :: _ =>
    if c.isAlpha && (u.drop s.length).head? == some ':' then
      some (s ++ [':'], u.drop (s.length + 1))
    else
      none

/-- The result of resolving and parsing a URL: the fields `loopbackResolve`
reads off `absoluteURL`. -/
structure AbsURL where
  protocol : JsStr
  hostname : JsStr
  path : JsStr
deriving DecidableEq, Repr

/-- Modelled from the external Node `url` module: parse the part after
`//` into a hostname (up to `:`, `/`, `?` or `#`, lowercased) and a path. -/
def parseAuthority (protocol : JsStr) (s : JsStr) : AbsURL :=
  let auth := s.takeWhile fun c => c != '/' && c != '?' && c != '#'
  let rest := s.drop auth.length
  { protocol := protocol,
    hostname := (auth.takeWhile (· != ':')).map Char.toLower,
    path := if rest.isEmpty then jstr "/" else rest }

/-- Modelled from the external Node `url` module:
`URL.parse(URL.resolve(`[`${protocol}//localhost/`]`, u))`. An absolute URL
keeps its own scheme and host; a protocol-relative `//host/...` URL takes
the base's protocol; everything else is a relative reference and receives
the base's host, `localhost`. -/
def resolveParse (protocol : JsStr) (u : JsStr) : AbsURL :=
  match schemeSplit u with
  | some (scheme, rest) =>
    if jsStartsWith rest (jstr "//") then
      parseAuthority (scheme.map Char.toLower) (rest.drop 2)
    else
      { protocol := scheme.map Char.toLower, hostname := [], path := rest }
  | none =>
    if jsStartsWith u (jstr "//") then
      parseAuthority protocol (u.drop 2)
    else
      { protocol := protocol, hostname := jstr "localhost",
        path := if jsStartsWith u (jstr "/") then u else '/' :: u }

/-- `loopbackResolve` (lines 226-234): resolve against the loopback base,
then point `host`/`port` at the server's local address while `hostname`
keeps the logical host of the resolved URL. -/
def loopbackResolve (protocol serverHost : JsStr) (serverPort : Option Nat)
    (relativeURL : JsStr) : URLObj :=
  let absoluteURL := resolveParse protocol relativeURL
  { protocol := absoluteURL.protocol, hostname := absoluteURL.hostname,
    host := serverHost, port := serverPort, path := absoluteURL.path }

/-! ## Orchestrator -/

/-- The check registry: `Object.keys` order is insertion order for these
string keys, so a JS object from URL to expected-fragment list is an
association list with distinct keys. -/
abbrev Registry := List (JsStr × List JsStr)

/-- The probe headers built per check (lines 243-246). -/
def checkHeaders (requestID : JsStr) : List (JsStr × JsStr) :=
  [(jstr "User-Agent", jstr "Mozilla/5.0 (compatible) Healthchecks http://broadly.com"),
   (jstr "X-Request-Id", requestID)]

/-- One check of `checkFunction`'s `allChecks` map (lines 237-260): run the
probe from redirect counter 0 and classify the resolved response or the
rejected error into an `Outcome`. -/
def checkOne (net : Net) (timeout : Nat) (resolver : JsStr → URLObj)
    (requestID : JsStr) (elapsed : Nat) (checkURL : JsStr)
    (expected : List JsStr) : Outcome :=
  mkOutcome checkURL expected elapsed
    (runCheck net timeout (checkHeaders requestID) resolver checkURL 0)

/-- All checks of one run (`Object.keys(checks).map(...)`, line 237);
`Promise.all` keeps this input order. -/
def runAllChecks (net : Net) (timeout : Nat) (resolver : JsStr → URLObj)
    (requestID : JsStr) (elapsed : Nat) (checks : Registry) : List Outcome :=
  checks.map fun c => checkOne net timeout resolver requestID elapsed c.1 c.2

/-- JS truthiness of the `reason` property: `undefined` and the empty
string are falsy, a non-empty string is truthy. -/
def truthy : Option JsStr → Bool
  | none => false
  | some [] => false
  | some (_ :: _) => true

/-- `outcomes.filter(outcome => !outcome.reason)` (line 270). -/
def passedOf (outcomes : List Outcome) : List Outcome :=
  outcomes.filter fun o => !(truthy o.reason)

/-- `outcomes.filter(outcome => outcome.reason)` (line 271). -/
def failedOf (outcomes : List Outcome) : List Outcome :=
  outcomes.filter fun o => truthy o.reason

/-- `statusCodeFromOutcomes` (lines 336-345). -/
def statusCodeFromOutcomes (passed failed : List Outcome) : Nat :=
  let anyFailed := failed.length > 0
  let anyPassed := passed.length > 0
  if anyFailed then 500
  else if anyPassed then 200
  else 404

/-- `compareProperty` (lines 322-330) instantiated at `'url'`, the only
property the middleware sorts by: `-1`/`1`/`0` by JS `<`/`>` on the
property values. -/
def compareProperty (a b : Outcome) : Int :=
  if jsLtStr a.url b.url then -1
  else if jsLtStr b.url a.url then 1
  else 0

/-- `.sort(compareProperty('url'))` (lines 399-400): JS `Array.sort` with a
consistent comparator produces an array sorted by it; embedded as a merge
sort by the comparator's non-positive test. -/
def sortByUrl (l : List Outcome) : List Outcome :=
  l.mergeSort fun a b => decide (compareProperty a b ≤ 0)

/-! ## Check registry loader (`readChecks`, lines 281-318) -/

/-- The whitespace characters relevant to JS `trim` and `\s` here. -/
def isJsSpace (c : Char) : Bool :=
  c == ' ' || c == '\t' || c == '\n' || c == '\r' || c == '\x0b' || c == '\x0c'

/-- JS `line.trim()`. -/
def jsTrim (s : JsStr) : JsStr :=
  ((s.dropWhile isJsSpace).reverse.dropWhile isJsSpace).reverse

/-- A line-break character of the split regex `/[\n\r]+/`. -/
def isLineBreak (c : Char) : Bool := c == '\n' || c == '\r'

/-- `content.split(/[\n\r]+/)`, modelled by splitting at every single break
character: a `\r\n` or other run of breaks then yields interior empty
pieces where the regex split yields none, but the pipeline's very next
steps (`trim`, drop empty lines) erase the difference. -/
def splitLinesJs (content : JsStr) : List JsStr :=
  content.foldr
    (fun c acc =>
      if isLineBreak c then [] :: acc
      else
        match acc with
        | [] => [[c]]
        | l :: ls => (c :: l) :: ls)
    [[]]

/-- JS `\w`: ASCII letter, digit or underscore. -/
def isWordChar (c : Char) : Bool := c.isAlphanum || c == '_'

/-- `/^\w+=/.test(line)`: a `name=value` option line. -/
def isNameValue (l : JsStr) : Bool :=
  let w := l.takeWhile isWordChar
  !w.isEmpty && ((l.drop w.length).head? == some '=')

/-- `line.match(/^(\S+)\s*(.*)/)` on a trimmed non-empty line: the URL is
the leading non-whitespace run, the expected text the remainder after the
following whitespace. -/
def checkLineSplit (line : JsStr) : JsStr × JsStr :=
  let url := line.takeWhile fun c => !isJsSpace c
  (url, (line.drop url.length).dropWhile isJsSpace)

/-- The line pipeline of `readChecks` (lines 283-294) up to the point the
URLs are validated: split into lines, trim, drop empty lines, comments and
`name=value` lines, and split each remaining check line into URL and
expected text. -/
def checkLines (content : JsStr) : List (JsStr × JsStr) :=
  (((((splitLinesJs content).map jsTrim).filter
      fun l => !l.isEmpty).filter
        fun l => !(l.head? == some '#')).filter
          fun l => !isNameValue l).map checkLineSplit

/-- The fields of Node's `URL.parse` result that `readChecks` validates.
The parser itself is an external collaborator; `readChecks` is parametric
in it. -/
structure ParsedURL where
  protocol : Option JsStr
  pathname : Option JsStr
deriving DecidableEq, Repr

/-- `url.pathname && url.pathname[0] === '/'` (line 298): the pathname is
present, non-empty (a JS empty string is falsy) and starts with `/`. -/
def pathnameOk (u : ParsedURL) : Bool :=
  match u.pathname with
  | some (c :: _) => c == '/'
  | _ => false

/-- `!url.protocol || /^https?:$/.test(url.protocol)` (line 299): no scheme
declared (absent or JS-falsy empty), or exactly `http:`/`https:`. -/
def protocolOk (u : ParsedURL) : Bool :=
  match u.protocol with
  | none => true
  | some [] => true
  | some (c :: cs) => (c :: cs : JsStr) == jstr "http:" || (c :: cs : JsStr) == jstr "https:"

/-- The two `assert` calls of lines 295-301 on one check line: a failing
assertion throws out of `readChecks` (a fatal configuration error at load
time); a passing one returns the check unchanged. -/
def assertCheck (parse : JsStr → ParsedURL) (check : JsStr × JsStr) :
    Except JsStr (JsStr × JsStr) :=
  let url := parse check.1
  if !(pathnameOk url) then .error (jstr "Check URL must have absolute pathname")
  else if !(protocolOk url) then .error (jstr "Check URL may only use HTTP/S protocol")
  else .ok check

/-- The `reduce` step (lines 302-308): `memo[url] = memo[url] || []`, then
push the expected text when it is truthy (non-empty). New keys are added in
insertion order, matching `Object.keys` enumeration. -/
def addCheck (memo : Registry) (check : JsStr × JsStr) : Registry :=
  let base := if memo.any fun kv => kv.1 == check.1 then memo else memo ++ [(check.1, [])]
  if check.2.isEmpty then base
  else base.map fun kv => if kv.1 == check.1 then (kv.1, kv.2 ++ [check.2]) else kv

/-- The validating `.map` of lines 295-301: JS `Array.map` applies the
callback left to right, and the first failing `assert` throws out of the
whole pipeline. -/
def validateChecks (parse : JsStr → ParsedURL) :
    List (JsStr × JsStr) → Except JsStr (List (JsStr × JsStr))
  | [] => .ok []
  | c :: cs =>
    match assertCheck parse c with
    | .error e => .error e
    | .ok c' =>
      match validateChecks parse cs with
      | .error e => .error e
      | .ok cs' => .ok (c' :: cs')

/-- `readChecks` (lines 281-318), parametric in the external URL parser:
validate every check line (the first failing assertion aborts loading) and
fold the validated lines into the registry. -/
def readChecks (parse : JsStr → ParsedURL) (content : JsStr) :
    Except JsStr Registry :=
  match validateChecks parse (checkLines content) with
  | .error e => .error e
  | .ok cs => .ok (cs.foldl addCheck [])

/-! ## Classifier lemmas -/

theorem all_fragments_iff (body : JsStr) (expected : List JsStr) :
    (expected.all fun t => jsIncludes body t) = true ↔
      ∀ t ∈ expected, SubstrOf t body := by
  rw [List.all_eq_true]
  constructor
  · intro h t ht
    exact (jsIncludes_iff body t).mp (h t ht)
  · intro h t ht
    exact (jsIncludes_iff body t).mpr (h t ht)

theorem mkOutcome_error_timeout (url : JsStr) (expected : List JsStr)
    (elapsed : Nat) (e : JsError) (hc : e.code = some (jstr "ETIMEDOUT")) :
    (mkOutcome url expected elapsed (.error e)).reason = some (jstr "timeout") := by
  simp [mkOutcome, hc]

theorem mkOutcome_error_plain (url : JsStr) (expected : List JsStr)
    (elapsed : Nat) (e : JsError) (hc : e.code ≠ some (jstr "ETIMEDOUT")) :
    (mkOutcome url expected elapsed (.error e)).reason = some (jstr "error") := by
  simp only [mkOutcome]
  rw [if_neg (by simpa using hc)]

theorem mkOutcome_ok_statusCode (url : JsStr) (expected : List JsStr)
    (elapsed : Nat) (r : HttpResp) (hs : r.statusCode < 200 ∨ 400 ≤ r.statusCode) :
    (mkOutcome url expected elapsed (.ok r)).reason = some (jstr "statusCode") := by
  simp only [mkOutcome]
  rw [if_pos hs]

theorem mkOutcome_ok_body (url : JsStr) (expected : List JsStr)
    (elapsed : Nat) (r : HttpResp) (hs : ¬(r.statusCode < 200 ∨ 400 ≤ r.statusCode))
    (hm : ¬ ∀ t ∈ expected, SubstrOf t r.body) :
    (mkOutcome url expected elapsed (.ok r)).reason = some (jstr "body") := by
  have hall : (expected.all fun t => jsIncludes r.body t) = false := by
    cases h : expected.all fun t => jsIncludes r.body t with
    | false => rfl
    | true => exact absurd ((all_fragments_iff r.body expected).mp h) hm
  simp only [mkOutcome]
  rw [if_neg hs, if_pos (by simp [hall])]

theorem mkOutcome_ok_pass (url : JsStr) (expected : List JsStr)
    (elapsed : Nat) (r : HttpResp) (hs : ¬(r.statusCode < 200 ∨ 400 ≤ r.statusCode))
    (hm : ∀ t ∈ expected, SubstrOf t r.body) :
    (mkOutcome url expected elapsed (.ok r)).reason = none := by
  have hall : (expected.all fun t => jsIncludes r.body t) = true :=
    (all_fragments_iff r.body expected).mpr hm
  simp only [mkOutcome]
  rw [if_neg hs, if_neg (by simp [hall])]

/-- **C1.** For every classifier input (an error or a response with
`statusCode` and `body`, plus the expected fragments), the `Outcome`
constructor assigns exactly one reason by the source's precedence: a
timeout-coded error gives `timeout`; any other error gives `error`; then a
status code outside `[200, 400)` gives `statusCode`; then a missing
expected fragment gives `body`; otherwise the check passes and no reason is
assigned (`none`). The classifier is total by construction (`mkOutcome` is
a total function), and the first conjunct shows every input lands in
exactly one of the five mutually distinct reason values. -/
theorem c1_classifier_total_precedence (url : JsStr) (expected : List JsStr)
    (elapsed : Nat) (result : Except JsError HttpResp) :
    ((mkOutcome url expected elapsed result).reason = none ∨
     (mkOutcome url expected elapsed result).reason = some (jstr "timeout") ∨
     (mkOutcome url expected elapsed result).reason = some (jstr "error") ∨
     (mkOutcome url expected elapsed result).reason = some (jstr "statusCode") ∨
     (mkOutcome url expected elapsed result).reason = some (jstr "body")) ∧
    (∀ e, result = .error e →
      (e.code = some (jstr "ETIMEDOUT") →
        (mkOutcome url expected elapsed result).reason = some (jstr "timeout")) ∧
      (e.code ≠ some (jstr "ETIMEDOUT") →
        (mkOutcome url expected elapsed result).reason = some (jstr "error"))) ∧
    (∀ r, result = .ok r →
      ((r.statusCode < 200 ∨ 400 ≤ r.statusCode) →
        (mkOutcome url expected elapsed result).reason = some (jstr "statusCode")) ∧
      (200 ≤ r.statusCode → r.statusCode < 400 →
        ((∃ t ∈ expected, ¬ SubstrOf t r.body) →
          (mkOutcome url expected elapsed result).reason = some (jstr "body")) ∧
        ((∀ t ∈ expected, SubstrOf t r.body) →
          (mkOutcome url expected elapsed result).reason = none))) := by
  refine ⟨?_, ?_, ?_⟩
  · cases result with
    | error e =>
      by_cases hc : e.code = some (jstr "ETIMEDOUT")
      · exact Or.inr (Or.inl (mkOutcome_error_timeout url expected elapsed e hc))
      · exact Or.inr (Or.inr (Or.inl (mkOutcome_error_plain url expected elapsed e hc)))
    | ok r =>
      by_cases hs : r.statusCode < 200 ∨ 400 ≤ r.statusCode
      · exact Or.inr (Or.inr (Or.inr (Or.inl
          (mkOutcome_ok_statusCode url expected elapsed r hs))))
      · by_cases hm : ∀ t ∈ expected, SubstrOf t r.body
        · exact Or.inl (mkOutcome_ok_pass url expected elapsed r hs hm)
        · exact Or.inr (Or.inr (Or.inr (Or.inr
            (mkOutcome_ok_body url expected elapsed r hs hm))))
  · intro e he
    subst he
    constructor
    · intro hc
      exact mkOutcome_error_timeout url expected elapsed e hc
    · intro hc
      exact mkOutcome_error_plain url expected elapsed e hc
  · intro r hr
    subst hr
    constructor
    · intro hs
      exact mkOutcome_ok_statusCode url expected elapsed r hs
    · intro h200 h400
      have hs : ¬(r.statusCode < 200 ∨ 400 ≤ r.statusCode) := by omega
      constructor
      · intro hmiss
        exact mkOutcome_ok_body url expected elapsed r hs
          (by rintro hall; obtain ⟨t, ht, hnot⟩ := hmiss; exact hnot (hall t ht))
      · intro hall
        exact mkOutcome_ok_pass url expected elapsed r hs hall

theorem mkOutcome_reason_cases (url : JsStr) (expected : List JsStr)
    (elapsed : Nat) (result : Except JsError HttpResp) :
    (mkOutcome url expected elapsed result).reason = none ∨
    (mkOutcome url expected elapsed result).reason = some (jstr "timeout") ∨
    (mkOutcome url expected elapsed result).reason = some (jstr "error") ∨
    (mkOutcome url expected elapsed result).reason = some (jstr "statusCode") ∨
    (mkOutcome url expected elapsed result).reason = some (jstr "body") := by
  cases result with
  | error e =>
    by_cases hc : e.code = some (jstr "ETIMEDOUT")
    · exact Or.inr (Or.inl (mkOutcome_error_timeout url expected elapsed e hc))
    · exact Or.inr (Or.inr (Or.inl (mkOutcome_error_plain url expected elapsed e hc)))
  | ok r =>
    by_cases hs : r.statusCode < 200 ∨ 400 ≤ r.statusCode
    · exact Or.inr (Or.inr (Or.inr (Or.inl
        (mkOutcome_ok_statusCode url expected elapsed r hs))))
    · by_cases hm : ∀ t ∈ expected, SubstrOf t r.body
      · exact Or.inl (mkOutcome_ok_pass url expected elapsed r hs hm)
      · exact Or.inr (Or.inr (Or.inr (Or.inr
          (mkOutcome_ok_body url expected elapsed r hs hm))))

theorem mkOutcome_reason_none_iff (url : JsStr) (expected : List JsStr)
    (elapsed : Nat) (result : Except JsError HttpResp) :
    (mkOutcome url expected elapsed result).reason = none ↔
      ∃ r, result = .ok r ∧ ¬(r.statusCode < 200 ∨ 400 ≤ r.statusCode) ∧
        ∀ t ∈ expected, SubstrOf t r.body := by
  cases result with
  | error e =>
    constructor
    · intro h
      by_cases hc : e.code = some (jstr "ETIMEDOUT")
      · rw [mkOutcome_error_timeout url expected elapsed e hc] at h
        exact Option.noConfusion h
      · rw [mkOutcome_error_plain url expected elapsed e hc] at h
        exact Option.noConfusion h
    · rintro ⟨r, hr, -⟩
      exact Except.noConfusion hr
  | ok r =>
    constructor
    · intro h
      by_cases hs : r.statusCode < 200 ∨ 400 ≤ r.statusCode
      · rw [mkOutcome_ok_statusCode url expected elapsed r hs] at h
        exact Option.noConfusion h
      · by_cases hm : ∀ t ∈ expected, SubstrOf t r.body
        · exact ⟨r, rfl, hs, hm⟩
        · rw [mkOutcome_ok_body url expected elapsed r hs hm] at h
          exact Option.noConfusion h
    · rintro ⟨r', hr', hs, hm⟩
      injection hr' with h
      subst h
      exact mkOutcome_ok_pass url expected elapsed r hs hm

theorem mkOutcome_truthy_eq_isSome (url : JsStr) (expected : List JsStr)
    (elapsed : Nat) (result : Except JsError HttpResp) :
    truthy (mkOutcome url expected elapsed result).reason =
      (mkOutcome url expected elapsed result).reason.isSome := by
  rcases mkOutcome_reason_cases url expected elapsed result with
    h | h | h | h | h <;> rw [h] <;> decide

theorem mem_passedOf (o : Outcome) (l : List Outcome) :
    o ∈ passedOf l ↔ o ∈ l ∧ truthy o.reason = false := by
  simp [passedOf, List.mem_filter]

theorem mem_failedOf (o : Outcome) (l : List Outcome) :
    o ∈ failedOf l ↔ o ∈ l ∧ truthy o.reason = true := by
  simp [failedOf, List.mem_filter]

theorem length_filter_not_add_length_filter {α : Type} (l : List α) (p : α → Bool) :
    (l.filter fun x => !(p x)).length + (l.filter p).length = l.length := by
  induction l with
  | nil => rfl
  | cons x xs ih =>
    by_cases h : p x <;> simp [List.filter_cons, h, ← ih] <;> omega

/-- **C10.** The `reason` field is set iff the check failed: a passing
outcome's `reason` is absent (`none`) — the constructor never assigns a
`'none'` string value — every assigned reason is a non-empty string, the
truthiness test the orchestrator filters by coincides with presence of the
field, and a singleton partition places the outcome in `passed` exactly
when `reason` is absent and in `failed` exactly when it is a non-empty
string. -/
theorem c10_reason_iff_failed (url : JsStr) (expected : List JsStr)
    (elapsed : Nat) (result : Except JsError HttpResp) :
    ((mkOutcome url expected elapsed result).reason = none ↔
      (∃ r, result = .ok r ∧ ¬(r.statusCode < 200 ∨ 400 ≤ r.statusCode) ∧
        ∀ t ∈ expected, SubstrOf t r.body)) ∧
    ((mkOutcome url expected elapsed result).reason ≠ some (jstr "none")) ∧
    (∀ s, (mkOutcome url expected elapsed result).reason = some s → s ≠ []) ∧
    (truthy (mkOutcome url expected elapsed result).reason =
      (mkOutcome url expected elapsed result).reason.isSome) ∧
    (mkOutcome url expected elapsed result ∈
        passedOf [mkOutcome url expected elapsed result] ↔
      (mkOutcome url expected elapsed result).reason = none) ∧
    (mkOutcome url expected elapsed result ∈
        failedOf [mkOutcome url expected elapsed result] ↔
      ∃ s, (mkOutcome url expected elapsed result).reason = some s ∧ s ≠ []) := by
  refine ⟨mkOutcome_reason_none_iff url expected elapsed result, ?_, ?_, ?_, ?_, ?_⟩
  · rcases mkOutcome_reason_cases url expected elapsed result with
      h | h | h | h | h <;> rw [h] <;> decide
  · intro s hs
    rcases mkOutcome_reason_cases url expected elapsed result with
      h | h | h | h | h <;> rw [h] at hs
    · exact Option.noConfusion hs
    all_goals
      injection hs with h'
      subst h'
      decide
  · exact mkOutcome_truthy_eq_isSome url expected elapsed result
  · rw [mem_passedOf]
    simp only [List.mem_singleton, true_and, eq_self_iff_true]
    rw [mkOutcome_truthy_eq_isSome]
    cases (mkOutcome url expected elapsed result).reason <;> simp
  · rw [mem_failedOf]
    simp only [List.mem_singleton, true_and, eq_self_iff_true]
    constructor
    · intro htrue
      rcases mkOutcome_reason_cases url expected elapsed result with
        h | h | h | h | h
      · rw [h] at htrue
        exact Bool.noConfusion htrue
      · exact ⟨jstr "timeout", h, by decide⟩
      · exact ⟨jstr "error", h, by decide⟩
      · exact ⟨jstr "statusCode", h, by decide⟩
      · exact ⟨jstr "body", h, by decide⟩
    · rintro ⟨s, hs, hne⟩
      rw [hs]
      cases s with
      | nil => exact absurd rfl hne
      | cons c cs => rfl

/-- **C4.** The run report's status code is exactly 500 when the failed
partition is non-empty, else 200 when the passed partition is non-empty,
else 404; in particular a run over an empty registry yields 404, and any
failing check forces 500 regardless of passes. -/
theorem c4_status_code_from_outcomes (passed failed : List Outcome) :
    (statusCodeFromOutcomes passed failed = 500 ↔ failed ≠ []) ∧
    (statusCodeFromOutcomes passed failed = 200 ↔ failed = [] ∧ passed ≠ []) ∧
    (statusCodeFromOutcomes passed failed = 404 ↔ failed = [] ∧ passed = []) ∧
    (∀ (net : Net) (timeout : Nat) (resolver : JsStr → URLObj)
        (requestID : JsStr) (elapsed : Nat),
      statusCodeFromOutcomes
        (sortByUrl (passedOf (runAllChecks net timeout resolver requestID elapsed [])))
        (sortByUrl (failedOf (runAllChecks net timeout resolver requestID elapsed []))) = 404) := by
  refine ⟨?_, ?_, ?_, ?_⟩
  · cases failed <;> cases passed <;> simp [statusCodeFromOutcomes]
  · cases failed <;> cases passed <;> simp [statusCodeFromOutcomes]
  · cases failed <;> cases passed <;> simp [statusCodeFromOutcomes]
  · intro net timeout resolver requestID elapsed
    simp [runAllChecks, passedOf, failedOf, sortByUrl, statusCodeFromOutcomes]

/-- **C5.** For every run, the `passed` and `failed` partitions are
disjoint, each is drawn from the run's outcomes, their sizes sum to the
number of registered checks, and an outcome of the run lies in `passed`
exactly when its reason is absent and in `failed` exactly when a reason is
set. -/
theorem c5_partition_invariant (net : Net) (timeout : Nat)
    (resolver : JsStr → URLObj) (requestID : JsStr) (elapsed : Nat)
    (checks : Registry) :
    ((passedOf (runAllChecks net timeout resolver requestID elapsed checks)).length +
      (failedOf (runAllChecks net timeout resolver requestID elapsed checks)).length =
        checks.length) ∧
    (∀ o, ¬(o ∈ passedOf (runAllChecks net timeout resolver requestID elapsed checks) ∧
            o ∈ failedOf (runAllChecks net timeout resolver requestID elapsed checks))) ∧
    (∀ o ∈ passedOf (runAllChecks net timeout resolver requestID elapsed checks),
      o ∈ runAllChecks net timeout resolver requestID elapsed checks) ∧
    (∀ o ∈ failedOf (runAllChecks net timeout resolver requestID elapsed checks),
      o ∈ runAllChecks net timeout resolver requestID elapsed checks) ∧
    (∀ o ∈ runAllChecks net timeout resolver requestID elapsed checks,
      (o ∈ passedOf (runAllChecks net timeout resolver requestID elapsed checks) ↔
        o.reason = none) ∧
      (o ∈ failedOf (runAllChecks net timeout resolver requestID elapsed checks) ↔
        o.reason ≠ none)) := by
  refine ⟨?_, ?_, ?_, ?_, ?_⟩
  · have hlen : (runAllChecks net timeout resolver requestID elapsed checks).length =
        checks.length := List.length_map _ _
    rw [← hlen]
    exact length_filter_not_add_length_filter _ _
  · rintro o ⟨hp, hf⟩
    rw [mem_passedOf] at hp
    rw [mem_failedOf] at hf
    rw [hp.2] at hf
    exact Bool.noConfusion hf.2
  · intro o ho
    exact ((mem_passedOf o _).mp ho).1
  · intro o ho
    exact ((mem_failedOf o _).mp ho).1
  · intro o ho
    obtain ⟨c, hc, rfl⟩ := List.mem_map.mp ho
    have htruthy : truthy (checkOne net timeout resolver requestID elapsed c.1 c.2).reason =
        (checkOne net timeout resolver requestID elapsed c.1 c.2).reason.isSome :=
      mkOutcome_truthy_eq_isSome c.1 c.2 elapsed _
    constructor
    · rw [mem_passedOf, htruthy]
      constructor
      · rintro ⟨-, hfalse⟩
        exact Option.not_isSome_iff_eq_none.mp (by simp [hfalse])
      · intro hnone
        exact ⟨ho, by simp [hnone]⟩
    · rw [mem_failedOf, htruthy]
      constructor
      · rintro ⟨-, htrue⟩
        intro hnone
        rw [hnone] at htrue
        exact Bool.noConfusion htrue
      · intro hsome
        refine ⟨ho, ?_⟩
        cases h : (checkOne net timeout resolver requestID elapsed c.1 c.2).reason with
        | none => exact absurd h hsome
        | some s => simp [h]

theorem withinSameDomain_symm_true (x y : URLObj)
    (h : withinSameDomain x y = true) : withinSameDomain y x = true := by
  simp only [withinSameDomain, Bool.or_eq_true, beq_iff_eq] at h ⊢
  rcases h with (h | h) | h
  · exact Or.inl (Or.inl h.symm)
  · exact Or.inr h
  · exact Or.inl (Or.inr h)

/-- **C6.** `withinSameDomain` holds exactly when the hostnames are equal
or one extends the other by a `.`-separated front part, and the predicate
is symmetric in its two URL arguments: redirects from a subdomain to a
parent domain and vice versa are both permitted. -/
theorem c6_within_same_domain (a b : URLObj) :
    (withinSameDomain a b = true ↔
      (a.hostname = b.hostname ∨
       (∃ front, a.hostname = front ++ '.' :: b.hostname) ∨
       (∃ front, b.hostname = front ++ '.' :: a.hostname))) ∧
    withinSameDomain a b = withinSameDomain b a := by
  constructor
  · simp only [withinSameDomain, Bool.or_eq_true, beq_iff_eq, jsEndsWith_iff]
    tauto
  · cases hab : withinSameDomain a b with
    | true => rw [withinSameDomain_symm_true a b hab]
    | false =>
      cases hba : withinSameDomain b a with
      | false => rfl
      | true =>
        rw [withinSameDomain_symm_true b a hba] at hab
        exact Bool.noConfusion hab


deriving instance DecidableEq for Except

/-- The network of the C3 counterexample: every path shorter than 12
characters redirects one hop deeper on the same (relative, hence
`localhost`) domain; the 12-character path redirects to a foreign domain. -/
def c3Net : Net := fun _ req =>
  if req.path.length ≥ 12 then
    .ok { statusCode := 302, location := jstr "http://evil.example/", body := [] }
  else
    .ok { statusCode := 302, location := req.path ++ ['r'], body := [] }

/-- The loopback resolver of an HTTP server at 127.0.0.1. -/
def c3Resolver : JsStr → URLObj := loopbackResolve (jstr "http:") (jstr "127.0.0.1") none

/-! ## C2: the redirect bound -/

theorem runCheckHops_hops_le_aux (net : Net) (timeout : Nat)
    (headers : List (JsStr × JsStr)) (resolver : JsStr → URLObj) :
    ∀ fuel redirects url, MAX_REDIRECT_COUNT + 1 - redirects ≤ fuel →
      (runCheckHops net timeout headers resolver url redirects).2 ≤
        MAX_REDIRECT_COUNT - redirects := by
  intro fuel
  induction fuel with
  | zero =>
    intro redirects url h
    have hge : MAX_REDIRECT_COUNT ≤ redirects := by
      simp only [MAX_REDIRECT_COUNT] at *; omega
    rw [runCheckHops]
    cases net timeout (requestOf headers (resolver url)) with
    | error e => exact Nat.zero_le _
    | ok response =>
      dsimp only
      by_cases hred : REDIRECT_STATUSES.contains response.statusCode = true
      · rw [if_pos hred, dif_pos hge]
        exact Nat.zero_le _
      · rw [if_neg hred]
        exact Nat.zero_le _
  | succ n ih =>
    intro redirects url h
    rw [runCheckHops]
    cases net timeout (requestOf headers (resolver url)) with
    | error e => exact Nat.zero_le _
    | ok response =>
      dsimp only
      by_cases hred : REDIRECT_STATUSES.contains response.statusCode = true
      · by_cases hge : MAX_REDIRECT_COUNT ≤ redirects
        · rw [if_pos hred, dif_pos hge]
          exact Nat.zero_le _
        · by_cases hdom : withinSameDomain (resolver response.location) (resolver url) = true
          · rw [if_pos hred, dif_neg hge, if_pos hdom]
            dsimp only
            have hsub := ih (redirects + 1) response.location
              (by simp only [MAX_REDIRECT_COUNT] at *; omega)
            simp only [MAX_REDIRECT_COUNT] at hsub hge ⊢
            omega
          · rw [if_pos hred, dif_neg hge, if_neg hdom]
            exact Nat.zero_le _
      · rw [if_neg hred]
        exact Nat.zero_le _

theorem c2_aux (net : Net) (timeout : Nat) (headers : List (JsStr × JsStr))
    (resolver : JsStr → URLObj)
    (hchain : ∀ u, ∃ resp,
      net timeout (requestOf headers (resolver u)) = .ok resp ∧
      REDIRECT_STATUSES.contains resp.statusCode = true ∧
      withinSameDomain (resolver resp.location) (resolver u) = true) :
    ∀ fuel redirects url, MAX_REDIRECT_COUNT - redirects ≤ fuel →
      redirects ≤ MAX_REDIRECT_COUNT →
      runCheckHops net timeout headers resolver url redirects =
        (.error tooManyRedirectsError, MAX_REDIRECT_COUNT - redirects) := by
  intro fuel
  induction fuel with
  | zero =>
    intro redirects url hf hle
    have heq : redirects = MAX_REDIRECT_COUNT := by omega
    subst heq
    obtain ⟨resp, hnet, hstat, hdom⟩ := hchain url
    rw [runCheckHops, hnet]
    dsimp only
    rw [if_pos hstat, dif_pos (Nat.le_refl _)]
    simp
  | succ n ih =>
    intro redirects url hf hle
    by_cases heq : redirects = MAX_REDIRECT_COUNT
    · subst heq
      obtain ⟨resp, hnet, hstat, hdom⟩ := hchain url
      rw [runCheckHops, hnet]
      dsimp only
      rw [if_pos hstat, dif_pos (Nat.le_refl _)]
      simp
    · have hlt : redirects < MAX_REDIRECT_COUNT := by omega
      obtain ⟨resp, hnet, hstat, hdom⟩ := hchain url
      rw [runCheckHops, hnet]
      dsimp only
      rw [if_pos hstat, dif_neg (by omega), if_pos hdom]
      rw [ih (redirects + 1) resp.location (by omega) (by omega)]
      dsimp only
      simp only [Prod.mk.injEq]
      exact ⟨trivial, by omega⟩

/-- **C2.** When every probe in the chain answers with a same-domain
redirect (a self-redirecting target being the canonical case), `runCheck`
terminates: from counter `redirects ≤ 10` it follows exactly
`10 - redirects` hops and the next redirect response fails with the
`'too many redirects'` error instead of recursing; in particular from the
entry counter 0 exactly 10 hops are followed. Moreover no run whatsoever
follows more than 10 hops (last conjunct). Totality of the embedded
`runCheck` holds by construction — its recursion is well founded on the
same counter the source relies on. -/
theorem c2_redirect_bound (net : Net) (timeout : Nat)
    (headers : List (JsStr × JsStr)) (resolver : JsStr → URLObj)
    (url : JsStr) (redirects : Nat)
    (hchain : ∀ u, ∃ resp,
      net timeout (requestOf headers (resolver u)) = .ok resp ∧
      REDIRECT_STATUSES.contains resp.statusCode = true ∧
      withinSameDomain (resolver resp.location) (resolver u) = true)
    (hle : redirects ≤ MAX_REDIRECT_COUNT) :
    runCheckHops net timeout headers resolver url redirects =
      (.error tooManyRedirectsError, MAX_REDIRECT_COUNT - redirects) ∧
    runCheck net timeout headers resolver url redirects = .error tooManyRedirectsError ∧
    ∀ (anyNet : Net) (anyTimeout : Nat) (anyHeaders : List (JsStr × JsStr))
      (anyResolver : JsStr → URLObj) (anyURL : JsStr) (anyRedirects : Nat),
      (runCheckHops anyNet anyTimeout anyHeaders anyResolver anyURL anyRedirects).2 ≤
        MAX_REDIRECT_COUNT := by
  have h1 := c2_aux net timeout headers resolver hchain
    (MAX_REDIRECT_COUNT - redirects) redirects url (Nat.le_refl _) hle
  refine ⟨h1, ?_, ?_⟩
  · rw [← runCheckHops_fst net timeout headers resolver url redirects, h1]
  · intro anyNet anyTimeout anyHeaders anyResolver anyURL anyRedirects
    exact le_trans
      (runCheckHops_hops_le_aux anyNet anyTimeout anyHeaders anyResolver
        (MAX_REDIRECT_COUNT + 1 - anyRedirects) anyRedirects anyURL (Nat.le_refl _))
      (Nat.sub_le _ _)

/-- A network whose every response is a same-domain self-redirect. -/
def selfRedirectNet : Net := fun _ _ =>
  .ok { statusCode := 302, location := jstr "/", body := [] }

/-- A resolver mapping every URL to the same loopback URL object. -/
def constResolver : JsStr → URLObj := fun _ =>
  { protocol := jstr "http:", hostname := jstr "localhost",
    host := jstr "127.0.0.1", port := none, path := jstr "/" }

theorem c2_redirect_bound_witness :
    runCheckHops selfRedirectNet 3000 [] constResolver (jstr "/") 0 =
      (.error tooManyRedirectsError, 10) ∧
    runCheck selfRedirectNet 3000 [] constResolver (jstr "/") 0 =
      .error tooManyRedirectsError := by
  have hdom : ∀ x y : JsStr,
      withinSameDomain (constResolver x) (constResolver y) = true := by
    intro x y
    show withinSameDomain
        { protocol := jstr "http:", hostname := jstr "localhost",
          host := jstr "127.0.0.1", port := none, path := jstr "/" }
        { protocol := jstr "http:", hostname := jstr "localhost",
          host := jstr "127.0.0.1", port := none, path := jstr "/" } = true
    decide
  have h := c2_redirect_bound selfRedirectNet 3000 [] constResolver (jstr "/") 0
    (fun u => ⟨{ statusCode := 302, location := jstr "/", body := [] }, rfl,
      by decide, hdom (jstr "/") u⟩)
    (by decide)
  exact ⟨h.1, h.2.1⟩

/-! ## C3: cross-domain redirects

The claim as frozen quantifies over every probe response with a redirect
status and a cross-domain `Location`, and asserts the redirect response
itself becomes the final result. The source checks the redirect counter
first (line 151): once 10 redirects have been followed, the 11th response
produces the `'too many redirects'` error even when it is a cross-domain
redirect, so that response is not returned and the outcome is classified
from the error. The counterexample below drives `runCheck` from counter 0
through 10 same-domain hops into exactly that state. The amended claim
restricts to the redirect counter being below the bound; the cross-domain
redirect is then never followed and is itself the final result. -/

unseal runCheck in
theorem c3_counterexample_bound_precedes :
    runCheck c3Net 3000 [] c3Resolver (jstr "/r") 0 = .error tooManyRedirectsError ∧
    c3Net 3000 (requestOf [] (c3Resolver (jstr "/rrrrrrrrrrr"))) =
      .ok { statusCode := 302, location := jstr "http://evil.example/", body := [] } ∧
    REDIRECT_STATUSES.contains (302 : Int) = true ∧
    withinSameDomain (c3Resolver (jstr "http://evil.example/"))
      (c3Resolver (jstr "/rrrrrrrrrrr")) = false ∧
    runCheck c3Net 3000 [] c3Resolver (jstr "/r") 0 ≠
      .ok { statusCode := 302, location := jstr "http://evil.example/", body := [] } := by
  refine ⟨by decide, by decide, by decide, by decide, by decide⟩

/-- **C3 (amended).** While the redirect counter is below 10, a probe
response with a redirect status whose resolved `Location` host is not
within the same domain is not followed: `runCheck` returns that redirect
response itself as the final result. (At counter 10 the bound check
precedes the domain check and yields the `'too many redirects'` error, per
the counterexample.) -/
theorem c3_cross_domain_not_followed (net : Net) (timeout : Nat)
    (headers : List (JsStr × JsStr)) (resolver : JsStr → URLObj)
    (url : JsStr) (redirects : Nat) (response : HttpResp)
    (hnet : net timeout (requestOf headers (resolver url)) = .ok response)
    (hstat : REDIRECT_STATUSES.contains response.statusCode = true)
    (hlt : redirects < MAX_REDIRECT_COUNT)
    (hdom : withinSameDomain (resolver response.location) (resolver url) = false) :
    runCheck net timeout headers resolver url redirects = .ok response := by
  rw [runCheck, hnet]
  dsimp only
  rw [if_pos hstat, dif_neg (by omega), if_neg (by simp [hdom])]

/-- A network answering every request with a cross-domain redirect. -/
def crossDomainNet : Net := fun _ _ =>
  .ok { statusCode := 302, location := jstr "http://evil.example/", body := [] }

theorem c3_cross_domain_not_followed_witness :
    runCheck crossDomainNet 3000 [] c3Resolver (jstr "/a") 0 =
      .ok { statusCode := 302, location := jstr "http://evil.example/", body := [] } :=
  c3_cross_domain_not_followed crossDomainNet 3000 [] c3Resolver (jstr "/a") 0
    { statusCode := 302, location := jstr "http://evil.example/", body := [] }
    rfl (by decide) (by decide) (by decide)

/-! ## C8: sorted, deterministic partitions -/

theorem jsLtStr_asymm (a b : JsStr) (h : jsLtStr a b = true) :
    jsLtStr b a = false := by
  cases hba : jsLtStr b a with
  | false => rfl
  | true =>
    have htrans := jsLtStr_trans a b a h hba
    rw [jsLtStr_irrefl] at htrans
    exact Bool.noConfusion htrans

theorem jsLtStr_false_trans (a b c : JsStr) (hab : jsLtStr b a = false)
    (hbc : jsLtStr c b = false) : jsLtStr c a = false := by
  cases hca : jsLtStr c a with
  | false => rfl
  | true =>
    exfalso
    rcases jsLtStr_trichotomy b c with h | h | h
    · have hba := jsLtStr_trans b c a h hca
      rw [hab] at hba
      exact Bool.noConfusion hba
    · rw [hbc] at h
      exact Bool.noConfusion h
    · subst h
      rw [hca] at hab
      exact Bool.noConfusion hab

theorem jsLtStr_false_iff (a b : JsStr) :
    jsLtStr b a = false ↔ (List.Lex (· < ·) a b ∨ a = b) := by
  constructor
  · intro h
    rcases jsLtStr_trichotomy a b with h1 | h1 | h1
    · exact Or.inl ((jsLtStr_iff_lex a b).mp h1)
    · rw [h1] at h
      exact Bool.noConfusion h
    · exact Or.inr h1
  · intro h
    rcases h with h | h
    · exact jsLtStr_asymm a b ((jsLtStr_iff_lex a b).mpr h)
    · subst h
      exact jsLtStr_irrefl a

theorem compareProperty_nonpos (a b : Outcome) :
    compareProperty a b ≤ 0 ↔ jsLtStr b.url a.url = false := by
  unfold compareProperty
  by_cases h1 : jsLtStr a.url b.url = true
  · rw [if_pos h1]
    simp [jsLtStr_asymm _ _ h1]
  · rw [if_neg h1]
    by_cases h2 : jsLtStr b.url a.url = true
    · rw [if_pos h2]
      simp [h2]
    · rw [if_neg h2]
      rw [Bool.not_eq_true] at h2
      simp [h2]

theorem sortByUrl_le_trans (a b c : Outcome)
    (hab : decide (compareProperty a b ≤ 0) = true)
    (hbc : decide (compareProperty b c ≤ 0) = true) :
    decide (compareProperty a c ≤ 0) = true := by
  rw [decide_eq_true_iff, compareProperty_nonpos] at hab hbc ⊢
  exact jsLtStr_false_trans a.url b.url c.url hab hbc

theorem sortByUrl_le_total (a b : Outcome) :
    (decide (compareProperty a b ≤ 0) || decide (compareProperty b a ≤ 0)) = true := by
  rw [Bool.or_eq_true, decide_eq_true_iff, decide_eq_true_iff,
    compareProperty_nonpos, compareProperty_nonpos]
  rcases jsLtStr_trichotomy a.url b.url with h | h | h
  · exact Or.inl (jsLtStr_asymm _ _ h)
  · exact Or.inr (jsLtStr_asymm _ _ h)
  · rw [h, jsLtStr_irrefl]
    exact Or.inl rfl

theorem sortByUrl_sorted (l : List Outcome) :
    (sortByUrl l).Pairwise fun a b => decide (compareProperty a b ≤ 0) = true := by
  have h := @List.sorted_mergeSort Outcome
    (fun a b : Outcome => decide (compareProperty a b ≤ 0))
    (fun a b c hab hbc => sortByUrl_le_trans a b c hab hbc)
    (fun a b => sortByUrl_le_total a b) l
  exact h

theorem sortByUrl_perm (l : List Outcome) : (sortByUrl l).Perm l :=
  List.mergeSort_perm l _

theorem sortByUrl_pairwise_lt (l : List Outcome)
    (hnodup : (l.map Outcome.url).Nodup) :
    (sortByUrl l).Pairwise fun a b => jsLtStr a.url b.url = true := by
  have hne : (sortByUrl l).Pairwise fun a b : Outcome => a.url ≠ b.url := by
    have h1 : ((sortByUrl l).map Outcome.url).Nodup :=
      (((sortByUrl_perm l).map Outcome.url).nodup_iff).mpr hnodup
    exact (List.pairwise_map).mp h1
  have hle := sortByUrl_sorted l
  refine (hle.and hne).imp ?_
  rintro a b ⟨hab, hne'⟩
  rw [decide_eq_true_iff, compareProperty_nonpos, jsLtStr_false_iff] at hab
  rcases hab with h | h
  · exact (jsLtStr_iff_lex _ _).mpr h
  · exact absurd h hne'

theorem sortByUrl_eq_of_perm (l₁ l₂ : List Outcome) (hperm : l₁.Perm l₂)
    (hnodup : (l₁.map Outcome.url).Nodup) : sortByUrl l₁ = sortByUrl l₂ := by
  have hnodup₂ : (l₂.map Outcome.url).Nodup :=
    ((hperm.map Outcome.url).nodup_iff).mp hnodup
  have hpermS : (sortByUrl l₁).Perm (sortByUrl l₂) :=
    ((sortByUrl_perm l₁).trans hperm).trans (sortByUrl_perm l₂).symm
  haveI : IsAntisymm Outcome fun a b => jsLtStr a.url b.url = true :=
    ⟨fun a b h1 h2 => absurd h2 (by rw [jsLtStr_asymm _ _ h1]; simp)⟩
  exact List.eq_of_perm_of_sorted hpermS
    (sortByUrl_pairwise_lt l₁ hnodup) (sortByUrl_pairwise_lt l₂ hnodup₂)

theorem mkOutcome_url (url : JsStr) (expected : List JsStr) (elapsed : Nat)
    (result : Except JsError HttpResp) :
    (mkOutcome url expected elapsed result).url = url := by
  cases result with
  | error e => by_cases hc : e.code = some (jstr "ETIMEDOUT") <;> simp [mkOutcome, hc]
  | ok r => simp [mkOutcome]

theorem filter_perm_of_perm {α : Type} (p : α → Bool) {l₁ l₂ : List α}
    (h : l₁.Perm l₂) : (l₁.filter p).Perm (l₂.filter p) :=
  h.filter p

/-- **C8.** Both report partitions are sorted by the outcome's `url` in
ascending lexicographic order, and the sorted partitions are independent of
the order in which the concurrent probes completed: any two outcome lists
that are permutations of each other (with the per-run-unique URLs a
registry guarantees — last conjunct: each run produces exactly the registry
keys as URLs) sort to identical `passed` and identical `failed` lists. -/
theorem c8_sorted_deterministic (l₁ l₂ : List Outcome)
    (hperm : l₁.Perm l₂) (hnodup : (l₁.map Outcome.url).Nodup) :
    ((sortByUrl (passedOf l₁)).Pairwise fun a b =>
      List.Lex (· < ·) a.url b.url ∨ a.url = b.url) ∧
    ((sortByUrl (failedOf l₁)).Pairwise fun a b =>
      List.Lex (· < ·) a.url b.url ∨ a.url = b.url) ∧
    sortByUrl (passedOf l₁) = sortByUrl (passedOf l₂) ∧
    sortByUrl (failedOf l₁) = sortByUrl (failedOf l₂) ∧
    ∀ (net : Net) (timeout : Nat) (resolver : JsStr → URLObj)
      (requestID : JsStr) (elapsed : Nat) (checks : Registry),
      (runAllChecks net timeout resolver requestID elapsed checks).map Outcome.url =
        checks.map Prod.fst := by
  have hsortedLex : ∀ l : List Outcome, (sortByUrl l).Pairwise fun a b =>
      List.Lex (· < ·) a.url b.url ∨ a.url = b.url := by
    intro l
    refine (sortByUrl_sorted l).imp ?_
    intro a b hab
    rw [decide_eq_true_iff, compareProperty_nonpos, jsLtStr_false_iff] at hab
    exact hab
  have hnodupP : ((passedOf l₁).map Outcome.url).Nodup := by
    have hsub : ((passedOf l₁).map Outcome.url).Sublist (l₁.map Outcome.url) :=
      (List.filter_sublist l₁).map Outcome.url
    exact hnodup.sublist hsub
  have hnodupF : ((failedOf l₁).map Outcome.url).Nodup := by
    have hsub : ((failedOf l₁).map Outcome.url).Sublist (l₁.map Outcome.url) :=
      (List.filter_sublist l₁).map Outcome.url
    exact hnodup.sublist hsub
  refine ⟨hsortedLex _, hsortedLex _, ?_, ?_, ?_⟩
  · exact sortByUrl_eq_of_perm _ _ (filter_perm_of_perm _ hperm) hnodupP
  · exact sortByUrl_eq_of_perm _ _ (filter_perm_of_perm _ hperm) hnodupF
  · intro net timeout resolver requestID elapsed checks
    rw [runAllChecks, List.map_map]
    refine List.map_congr_left ?_
    intro c hc
    exact mkOutcome_url c.1 c.2 elapsed _

/-- A concrete passing outcome for the C8 witness. -/
def c8Outcome : Outcome :=
  { url := jstr "/a", elapsed := 0, expectedContent := [], reason := none,
    timeout := false, error := none, statusCode := some 200, body := some [] }

theorem c8_sorted_deterministic_witness :
    ((sortByUrl (passedOf [c8Outcome])).Pairwise fun a b =>
      List.Lex (· < ·) a.url b.url ∨ a.url = b.url) ∧
    ((sortByUrl (failedOf [c8Outcome])).Pairwise fun a b =>
      List.Lex (· < ·) a.url b.url ∨ a.url = b.url) ∧
    sortByUrl (passedOf [c8Outcome]) = sortByUrl (passedOf [c8Outcome]) ∧
    sortByUrl (failedOf [c8Outcome]) = sortByUrl (failedOf [c8Outcome]) ∧
    ∀ (net : Net) (timeout : Nat) (resolver : JsStr → URLObj)
      (requestID : JsStr) (elapsed : Nat) (checks : Registry),
      (runAllChecks net timeout resolver requestID elapsed checks).map Outcome.url =
        checks.map Prod.fst :=
  c8_sorted_deterministic [c8Outcome] [c8Outcome] (List.Perm.refl _) (by decide)

/-! ## C7: load-time validation -/

/-- The specification's wording of a valid check URL: it parses with a
pathname whose first character is `/`, and any declared scheme is HTTP or
HTTPS (a JS-falsy empty protocol string counts as undeclared, as in the
source's truthiness test). -/
def ValidCheckURL (parse : JsStr → ParsedURL) (url : JsStr) : Prop :=
  (∃ rest, (parse url).pathname = some ('/' :: rest)) ∧
  (∀ p, (parse url).protocol = some p →
    p = [] ∨ p = jstr "http:" ∨ p = jstr "https:")

theorem pathnameOk_iff (u : ParsedURL) :
    pathnameOk u = true ↔ ∃ rest, u.pathname = some ('/' :: rest) := by
  cases h : u.pathname with
  | none => simp [pathnameOk, h]
  | some s =>
    cases s with
    | nil => simp [pathnameOk, h]
    | cons c cs =>
      simp only [pathnameOk, h, beq_iff_eq, Option.some.injEq]
      constructor
      · rintro rfl
        exact ⟨cs, rfl⟩
      · rintro ⟨rest, heq⟩
        exact (List.cons_eq_cons.mp heq).1

theorem protocolOk_iff (u : ParsedURL) :
    protocolOk u = true ↔
      ∀ p, u.protocol = some p → p = [] ∨ p = jstr "http:" ∨ p = jstr "https:" := by
  cases h : u.protocol with
  | none => simp [protocolOk, h]
  | some s =>
    cases s with
    | nil =>
      simp only [protocolOk, h, Option.some.injEq, true_iff]
      rintro p rfl
      exact Or.inl rfl
    | cons c cs =>
      simp only [protocolOk, h, Bool.or_eq_true, beq_iff_eq, Option.some.injEq]
      constructor
      · intro h1 p hp
        subst hp
        rcases h1 with h1 | h1
        · exact Or.inr (Or.inl h1)
        · exact Or.inr (Or.inr h1)
      · intro hall
        rcases hall (c :: cs) rfl with h1 | h1 | h1
        · exact absurd h1 (by simp)
        · exact Or.inl h1
        · exact Or.inr h1

theorem validCheckURL_iff (parse : JsStr → ParsedURL) (u : JsStr) :
    (pathnameOk (parse u) = true ∧ protocolOk (parse u) = true) ↔
      ValidCheckURL parse u :=
  and_congr (pathnameOk_iff _) (protocolOk_iff _)

theorem assertCheck_cases (parse : JsStr → ParsedURL) (check : JsStr × JsStr) :
    (assertCheck parse check = .ok check ∧
      pathnameOk (parse check.1) = true ∧ protocolOk (parse check.1) = true) ∨
    ((∃ e, assertCheck parse check = .error e) ∧
      ¬(pathnameOk (parse check.1) = true ∧ protocolOk (parse check.1) = true)) := by
  unfold assertCheck
  by_cases h1 : pathnameOk (parse check.1) = true
  · by_cases h2 : protocolOk (parse check.1) = true
    · left
      refine ⟨?_, h1, h2⟩
      rw [if_neg (by simp [h1]), if_neg (by simp [h2])]
    · right
      have h2' : protocolOk (parse check.1) = false := Bool.eq_false_iff.mpr h2
      refine ⟨⟨jstr "Check URL may only use HTTP/S protocol", ?_⟩, ?_⟩
      · rw [if_neg (by simp [h1]), if_pos (by simp [h2'])]
      · rintro ⟨-, hcontra⟩
        exact h2 hcontra
  · right
    have h1' : pathnameOk (parse check.1) = false := Bool.eq_false_iff.mpr h1
    refine ⟨⟨jstr "Check URL must have absolute pathname", ?_⟩, ?_⟩
    · rw [if_pos (by simp [h1'])]
    · rintro ⟨hcontra, -⟩
      exact h1 hcontra

theorem validateChecks_spec (parse : JsStr → ParsedURL) :
    ∀ cs, ((∃ e, validateChecks parse cs = .error e) ↔
        ∃ c ∈ cs, ¬(pathnameOk (parse c.1) = true ∧ protocolOk (parse c.1) = true)) ∧
      (∀ cs', validateChecks parse cs = .ok cs' → cs' = cs) := by
  intro cs
  induction cs with
  | nil =>
    constructor
    · constructor
      · rintro ⟨e, he⟩
        exact Except.noConfusion he
      · rintro ⟨c, hc, -⟩
        exact absurd hc (List.not_mem_nil c)
    · intro cs' h
      injection h with h'
      exact h'.symm
  | cons c cs ih =>
    obtain ⟨ihErr, ihOk⟩ := ih
    constructor
    · constructor
      · rintro ⟨e, he⟩
        unfold validateChecks at he
        rcases assertCheck_cases parse c with ⟨hok, -⟩ | ⟨⟨e', herr⟩, hinvalid⟩
        · rw [hok] at he
          cases hvc : validateChecks parse cs with
          | error e2 =>
            obtain ⟨c', hc', hv⟩ := ihErr.mp ⟨e2, hvc⟩
            exact ⟨c', List.mem_cons_of_mem _ hc', hv⟩
          | ok cs0 =>
            rw [hvc] at he
            exact Except.noConfusion he
        · exact ⟨c, List.mem_cons_self c cs, hinvalid⟩
      · rintro ⟨c', hc', hv⟩
        rcases List.mem_cons.mp hc' with rfl | hmem
        · rcases assertCheck_cases parse c' with ⟨-, hvalid⟩ | ⟨⟨e, herr⟩, -⟩
          · exact absurd hvalid hv
          · refine ⟨e, ?_⟩
            unfold validateChecks
            rw [herr]
        · obtain ⟨e, he⟩ := ihErr.mpr ⟨c', hmem, hv⟩
          rcases assertCheck_cases parse c with ⟨hok, -⟩ | ⟨⟨e', herr⟩, -⟩
          · refine ⟨e, ?_⟩
            unfold validateChecks
            rw [hok, he]
          · refine ⟨e', ?_⟩
            unfold validateChecks
            rw [herr]
    · intro cs' h
      unfold validateChecks at h
      cases hac : assertCheck parse c with
      | error e =>
        rw [hac] at h
        exact Except.noConfusion h
      | ok c0 =>
        rw [hac] at h
        cases hvc : validateChecks parse cs with
        | error e =>
          rw [hvc] at h
          exact Except.noConfusion h
        | ok cs0 =>
          rw [hvc] at h
          injection h with h'
          rcases assertCheck_cases parse c with ⟨hok, -⟩ | ⟨⟨e', herr⟩, -⟩
          · rw [hok] at hac
            injection hac with hc0
            rw [← h', ← hc0, ihOk cs0 hvc]
          · rw [herr] at hac
            exact Except.noConfusion hac

theorem addCheck_key (memo : Registry) (c : JsStr × JsStr) :
    ∀ kv ∈ addCheck memo c, (∃ kv' ∈ memo, kv.1 = kv'.1) ∨ kv.1 = c.1 := by
  intro kv hkv
  unfold addCheck at hkv
  by_cases h2 : c.2.isEmpty
  · rw [if_pos h2] at hkv
    split at hkv
    · exact Or.inl ⟨kv, hkv, rfl⟩
    · rcases List.mem_append.mp hkv with h' | h'
      · exact Or.inl ⟨kv, h', rfl⟩
      · rw [List.mem_singleton] at h'
        right
        rw [h']
  · rw [if_neg h2] at hkv
    obtain ⟨kv', hkv', heq⟩ := List.mem_map.mp hkv
    have hkey : kv.1 = kv'.1 := by
      rw [← heq]
      split
      · rfl
      · rfl
    split at hkv'
    · exact Or.inl ⟨kv', hkv', hkey⟩
    · rcases List.mem_append.mp hkv' with h' | h'
      · exact Or.inl ⟨kv', h', hkey⟩
      · rw [List.mem_singleton] at h'
        right
        rw [hkey, h']

theorem foldl_addCheck_key :
    ∀ (cs : List (JsStr × JsStr)) (memo : Registry) (kv : JsStr × List JsStr),
      kv ∈ cs.foldl addCheck memo →
      (∃ kv' ∈ memo, kv.1 = kv'.1) ∨ ∃ c ∈ cs, kv.1 = c.1 := by
  intro cs
  induction cs with
  | nil =>
    intro memo kv h
    exact Or.inl ⟨kv, h, rfl⟩
  | cons c cs ih =>
    intro memo kv h
    rw [List.foldl_cons] at h
    rcases ih (addCheck memo c) kv h with ⟨kv', hkv', heq⟩ | ⟨c', hc', heq⟩
    · rcases addCheck_key memo c kv' hkv' with ⟨kv'', hkv'', heq2⟩ | heq2
      · exact Or.inl ⟨kv'', hkv'', heq.trans heq2⟩
      · exact Or.inr ⟨c, List.mem_cons_self c cs, heq.trans heq2⟩
    · exact Or.inr ⟨c', List.mem_cons_of_mem _ hc', heq⟩

/-- **C7.** Loading fails with a fatal error exactly when some check line's
URL is invalid in the sense of the spec (no `/`-leading pathname, or a
declared scheme other than HTTP/S); when loading succeeds every registry
key satisfies both constraints, and the per-request run is total — every
registered check yields an outcome, so no configuration-validation error
can arise during a run. -/
theorem c7_config_validation (parse : JsStr → ParsedURL) (content : JsStr) :
    ((∃ e, readChecks parse content = .error e) ↔
      ∃ c ∈ checkLines content, ¬ ValidCheckURL parse c.1) ∧
    (∀ reg, readChecks parse content = .ok reg →
      ∀ kv ∈ reg, ValidCheckURL parse kv.1) ∧
    (∀ reg, readChecks parse content = .ok reg →
      ∀ (net : Net) (timeout : Nat) (resolver : JsStr → URLObj)
        (requestID : JsStr) (elapsed : Nat),
        (runAllChecks net timeout resolver requestID elapsed reg).length = reg.length) := by
  obtain ⟨hiff, hok⟩ := validateChecks_spec parse (checkLines content)
  refine ⟨?_, ?_, ?_⟩
  · constructor
    · rintro ⟨e, he⟩
      unfold readChecks at he
      cases hvc : validateChecks parse (checkLines content) with
      | error e2 =>
        obtain ⟨c, hc, hv⟩ := hiff.mp ⟨e2, hvc⟩
        exact ⟨c, hc, fun hvalid => hv ((validCheckURL_iff parse c.1).mpr hvalid)⟩
      | ok cs =>
        rw [hvc] at he
        exact Except.noConfusion he
    · rintro ⟨c, hc, hv⟩
      obtain ⟨e, he⟩ := hiff.mpr ⟨c, hc, fun hb => hv ((validCheckURL_iff parse c.1).mp hb)⟩
      refine ⟨e, ?_⟩
      unfold readChecks
      rw [he]
  · intro reg hreg kv hkv
    unfold readChecks at hreg
    cases hvc : validateChecks parse (checkLines content) with
    | error e =>
      rw [hvc] at hreg
      exact Except.noConfusion hreg
    | ok cs =>
      rw [hvc] at hreg
      injection hreg with hreg'
      have hcs : cs = checkLines content := hok cs hvc
      have hnoerr : ¬ ∃ c ∈ checkLines content,
          ¬(pathnameOk (parse c.1) = true ∧ protocolOk (parse c.1) = true) := by
        intro hbad
        obtain ⟨e, he⟩ := hiff.mpr hbad
        rw [hvc] at he
        exact Except.noConfusion he
      push_neg at hnoerr
      rw [← hreg'] at hkv
      rcases foldl_addCheck_key cs [] kv hkv with ⟨kv', hkv', -⟩ | ⟨c, hc, heq⟩
      · exact absurd hkv' (List.not_mem_nil kv')
      · rw [hcs] at hc
        rw [heq]
        exact (validCheckURL_iff parse c.1).mp (hnoerr c hc)
  · intro reg hreg net timeout resolver requestID elapsed
    exact List.length_map _ _

/-! ## C9: loopback resolution of relative redirect Locations

The claim's first half — every URL the resolver is handed is parsed
against the synthetic base `` `${protocol}//localhost/` ``, so a relative
or host-less URL gets hostname `localhost` — holds. Its consequence as
frozen ("for a check declared with an absolute non-localhost host, a
relative-path redirect compares `localhost` against that host, is judged
not within the same domain, and is not followed") fails for hosts such as
`www.localhost`: `www.localhost` is not `localhost`, yet
`withinSameDomain` accepts the dot-suffix pair, so the redirect *is*
followed (counterexample below). The amended claim excludes hosts equal to
or dot-suffix-related to `localhost` and counters below the redirect
bound. -/

/-- The network of the C9 scenario: `/a` answers with a relative redirect
to `/b`; everything else answers 200. -/
def c9Net : Net := fun _ req =>
  if req.path == jstr "/a" then
    .ok { statusCode := 302, location := jstr "/b", body := [] }
  else
    .ok { statusCode := 200, location := [], body := jstr "OK" }

unseal runCheck in
theorem c9_counterexample_localhost_subdomain :
    (c3Resolver (jstr "http://www.localhost/a")).hostname = jstr "www.localhost" ∧
    jstr "www.localhost" ≠ jstr "localhost" ∧
    (c3Resolver (jstr "/b")).hostname = jstr "localhost" ∧
    c9Net 3000 (requestOf [] (c3Resolver (jstr "http://www.localhost/a"))) =
      .ok { statusCode := 302, location := jstr "/b", body := [] } ∧
    withinSameDomain (c3Resolver (jstr "/b"))
      (c3Resolver (jstr "http://www.localhost/a")) = true ∧
    runCheck c9Net 3000 [] c3Resolver (jstr "http://www.localhost/a") 0 =
      .ok { statusCode := 200, location := [], body := jstr "OK" } := by
  refine ⟨by decide, by decide, by decide, by decide, by decide, by decide⟩

/-- **C9 (amended).** The loopback resolver parses every URL against the
synthetic base, so a scheme-less, non-`//` (relative or host-less) URL
receives hostname `localhost`. Consequently, for a check whose resolved
host is neither `localhost` nor dot-suffix-related to it, while the
redirect counter is below 10, a redirect with such a relative `Location`
is judged not within the same domain and is not followed: the redirect
response is the final result. (For hosts inside the `localhost` domain,
such as `www.localhost`, the redirect is followed instead — see the
counterexample.) -/
theorem c9_relative_location_resolution (protocol serverHost : JsStr)
    (serverPort : Option Nat) (net : Net) (timeout : Nat)
    (headers : List (JsStr × JsStr)) (checkURL : JsStr) (redirects : Nat)
    (response : HttpResp)
    (hscheme : schemeSplit response.location = none)
    (hslash : jsStartsWith response.location (jstr "//") = false)
    (hnet : net timeout (requestOf headers
      (loopbackResolve protocol serverHost serverPort checkURL)) = .ok response)
    (hstat : REDIRECT_STATUSES.contains response.statusCode = true)
    (hlt : redirects < MAX_REDIRECT_COUNT)
    (hne : (loopbackResolve protocol serverHost serverPort checkURL).hostname ≠
      jstr "localhost")
    (hsub1 : jsEndsWith (jstr "localhost")
      ('.' :: (loopbackResolve protocol serverHost serverPort checkURL).hostname) = false)
    (hsub2 : jsEndsWith (loopbackResolve protocol serverHost serverPort checkURL).hostname
      ('.' :: jstr "localhost") = false) :
    (loopbackResolve protocol serverHost serverPort response.location).hostname =
      jstr "localhost" ∧
    withinSameDomain (loopbackResolve protocol serverHost serverPort response.location)
      (loopbackResolve protocol serverHost serverPort checkURL) = false ∧
    runCheck net timeout headers (loopbackResolve protocol serverHost serverPort)
      checkURL redirects = .ok response := by
  have hloc : (loopbackResolve protocol serverHost serverPort response.location).hostname =
      jstr "localhost" := by
    simp only [loopbackResolve, resolveParse, hscheme]
    rw [if_neg (by simp [hslash])]
  have hdom : withinSameDomain
      (loopbackResolve protocol serverHost serverPort response.location)
      (loopbackResolve protocol serverHost serverPort checkURL) = false := by
    rw [Bool.eq_false_iff]
    intro htrue
    simp only [withinSameDomain, Bool.or_eq_true, beq_iff_eq] at htrue
    rw [hloc] at htrue
    rcases htrue with (h | h) | h
    · exact hne h.symm
    · rw [h] at hsub1
      exact Bool.noConfusion hsub1
    · rw [h] at hsub2
      exact Bool.noConfusion hsub2
  refine ⟨hloc, hdom, ?_⟩
  rw [runCheck, hnet]
  dsimp only
  rw [if_pos hstat, dif_neg (by omega), if_neg (by simp [hdom])]

theorem c9_relative_location_resolution_witness :
    (loopbackResolve (jstr "http:") (jstr "127.0.0.1") none (jstr "/b")).hostname =
      jstr "localhost" ∧
    withinSameDomain (loopbackResolve (jstr "http:") (jstr "127.0.0.1") none (jstr "/b"))
      (loopbackResolve (jstr "http:") (jstr "127.0.0.1") none
        (jstr "http://example.com/a")) = false ∧
    runCheck c9Net 3000 [] (loopbackResolve (jstr "http:") (jstr "127.0.0.1") none)
      (jstr "http://example.com/a") 0 =
      .ok { statusCode := 302, location := jstr "/b", body := [] } :=
  c9_relative_location_resolution (jstr "http:") (jstr "127.0.0.1") none c9Net 3000 []
    (jstr "http://example.com/a") 0
    { statusCode := 302, location := jstr "/b", body := [] }
    (by decide) (by decide) rfl (by decide) (by decide) (by decide) (by decide) (by decide)

end Healthchecks
